import Mathlib

/-!
Verification of the void-protocol client against its specification.

Bytes are modelled as `List Nat` (each entry a byte value).  External
cryptographic primitives (WebCrypto ECDH / AES-GCM / SHA-256 / HKDF) are
modelled as explicit function parameters; the properties the WebCrypto
contract guarantees (Diffie-Hellman commutativity, AEAD round-trip and
rejection) appear as hypotheses of the theorems that need them, and each
such theorem is instantiated on a small concrete model that satisfies
those properties.
-/

namespace VoidProtocol

/-- Byte strings. -/
abbrev Bytes := List Nat

/-- ASCII bytes of a string, as `Buffer.from(s)` produces for ASCII tags. -/
def strBytes (s : String) : Bytes := s.data.map Char.toNat

-- ───────────────────────── hash.ts ─────────────────────────

/-- Lowercase hex digit, as produced by JavaScript `Number.prototype.toString(16)`. -/
def hexDigitChar (d : Nat) : Char :=
  if d < 10 then Char.ofNat (48 + d) else Char.ofNat (87 + d)

/-- Hex representation of a natural number (`b.toString(16)` in JS):
little-endian digits from `Nat.digits`, reversed and mapped to chars. -/
def natToHexChars (n : Nat) : List Char :=
  if n = 0 then ['0'] else ((Nat.digits 16 n).map hexDigitChar).reverse

/-- Padding as `"x".padStart(2, "0")`, applied to the hex digits of one byte. -/
def byteToHex (b : Nat) : List Char :=
  let s := natToHexChars b
  if s.length < 2 then '0' :: s else s

/-- Function `toHex` from `hash.ts`: each byte rendered as two lowercase hex digits
(`b.toString(16).padStart(2, "0")`), concatenated. -/
def toHex (bytes : Bytes) : String :=
  String.mk (bytes.flatMap byteToHex)

-- ───────────────────── encryption.ts: payloads ─────────────────────

/-- Structure `EncryptedPayload` from `encryption.ts`. -/
structure EncryptedPayload where
  ephemeralPublicKey : Bytes
  iv : Bytes
  ciphertext : Bytes
  deriving Repr, DecidableEq

/-- Semantics of `Uint8Array.prototype.set(src, off)` on a list: overwrite `target`
starting at `off` with `src` (in-range semantics; the TS call throws when
`off + src.length` exceeds the target length, a case no theorem relies on). -/
def writeAt (target src : Bytes) (off : Nat) : Bytes :=
  target.take off ++ src ++ target.drop (off + src.length)

/-- Function `packPayload` from `encryption.ts`: allocate `65 + 12 + |ciphertext|`
zero bytes, then `set` the ephemeral key at 0, the IV at 65 and the
ciphertext at 77. -/
def packPayload (payload : EncryptedPayload) : Bytes :=
  let packed := List.replicate (65 + 12 + payload.ciphertext.length) 0
  let packed := writeAt packed payload.ephemeralPublicKey 0
  let packed := writeAt packed payload.iv 65
  writeAt packed payload.ciphertext (65 + 12)

/-- Function `unpackPayload` from `encryption.ts`: `slice(0,65)`, `slice(65,77)`,
`slice(77)`. -/
def unpackPayload (packed : Bytes) : EncryptedPayload :=
  { ephemeralPublicKey := packed.take 65
    iv := (packed.drop 65).take 12
    ciphertext := packed.drop 77 }

-- ───────────────── encryption.ts: seal / unseal ─────────────────

/-- Function `encryptForOrg` from `encryption.ts`, de-randomised: the WebCrypto
calls are parameters (`pub` = keypair generation + raw public-key export,
`dh` = `deriveKey` ECDH agreement producing the AES key, `enc` = AES-GCM
`encrypt`), and the randomly generated ephemeral private key and IV are
explicit arguments. -/
def encryptForOrg (pub : Nat → Bytes) (dh : Nat → Bytes → Nat)
    (enc : Nat → Bytes → Bytes → Bytes)
    (data : Bytes) (orgPublicKeyBytes : Bytes)
    (ephemeralPriv : Nat) (iv : Bytes) : EncryptedPayload :=
  let sharedKey := dh ephemeralPriv orgPublicKeyBytes
  { ephemeralPublicKey := pub ephemeralPriv
    iv := iv
    ciphertext := enc sharedKey iv data }

/-- Function `decryptSubmission` from `encryption.ts`: re-derive the shared AES key
from the org's private key and the payload's ephemeral public key, then
AES-GCM decrypt (`dec` returns `none` when WebCrypto rejects, i.e. the
integrity check fails). -/
def decryptSubmission (dh : Nat → Bytes → Nat)
    (dec : Nat → Bytes → Bytes → Option Bytes)
    (payload : EncryptedPayload) (orgPriv : Nat) : Option Bytes :=
  dec (dh orgPriv payload.ephemeralPublicKey) payload.iv payload.ciphertext

-- ─────────── concrete crypto model used by the witnesses ───────────

/-- Concrete model of public-key computation: the public key is the scalar
itself, wrapped as one byte. -/
def pubC (d : Nat) : Bytes := [d]

/-- Concrete DH: multiply the private scalar with the peer's point.
Commutative, as ECDH is. -/
def dhC (a : Nat) (b : Bytes) : Nat := a * b.headD 0

/-- Concrete AEAD encrypt: prepend the key (so that decryption can check it). -/
def encC (k : Nat) (_iv m : Bytes) : Bytes := k :: m

/-- Concrete AEAD decrypt: succeeds only under the key used to encrypt. -/
def decC (k : Nat) (_iv : Bytes) (c : Bytes) : Option Bytes :=
  match c with
  | [] => none
  | k' :: m => if k' = k then some m else none

-- ───────────── encryption.ts: base64url and key derivation ─────────────

/-- The base64 alphabet used by `btoa`. -/
def base64Chars : List Char :=
  "ABCDEFGHIJKLMNOPQRSTUVWXYZabcdefghijklmnopqrstuvwxyz0123456789+/".data

/-- One base64 output character. -/
def base64Char (n : Nat) : Char := base64Chars.getD n 'A'

/-- Semantics of `btoa` on a byte list: 3-byte groups to 4 characters, padded with `=`. -/
def btoaChars : Bytes → List Char
  | [] => []
  | [b1] => [base64Char (b1 / 4), base64Char (b1 % 4 * 16), '=', '=']
  | [b1, b2] =>
      [base64Char (b1 / 4), base64Char (b1 % 4 * 16 + b2 / 16),
       base64Char (b2 % 16 * 4), '=']
  | b1 :: b2 :: b3 :: rest =>
      base64Char (b1 / 4) :: base64Char (b1 % 4 * 16 + b2 / 16) ::
      base64Char (b2 % 16 * 4 + b3 / 64) :: base64Char (b3 % 64) :: btoaChars rest

/-- Function `base64UrlEncode` from `encryption.ts`: `btoa` then `+`→`-`, `/`→`_`
and `=` stripped. -/
def base64UrlEncode (bytes : Bytes) : String :=
  String.mk (((btoaChars bytes).map
    (fun c => if c = '+' then '-' else if c = '/' then '_' else c)).filter
    (fun c => c ≠ '='))

/-- The P-256 group order, the curve constant a private scalar `d` is
validated against (source comment: "If the scalar is invalid
(>= curve order), hash it again"). -/
def p256Order : Nat :=
  115792089210356248762697446949407573529996955224135760342422259061068512044369

/-- Big-endian byte-string value. -/
def beNat (bytes : Bytes) : Nat := bytes.foldl (fun acc b => acc * 256 + b) 0

/-- Model of `crypto.subtle.importKey("jwk", …)` for a P-256 private key:
succeeds exactly when the scalar is valid for the curve (`1 ≤ d < n`);
an invalid scalar makes the import throw, modelled as `none`. -/
def importPrivateScalar (dBytes : Bytes) : Option Bytes :=
  if 1 ≤ beNat dBytes ∧ beNat dBytes < p256Order then some dBytes else none

/-- The result of `deriveEncryptionKeyPair`: raw public key bytes and the
private-key JWK (determined by its `d` parameter; `x`,`y` are computed from
`d` by the browser, i.e. by `ecPub`). -/
structure DerivedKeyPair where
  publicKey : Bytes
  privateKeyJwkD : String
  deriving Repr, DecidableEq

/-- The failure the un-caught second `importKey` throw surfaces. The code
has no `DerivationError` (or any other named error) kind; the raw import
exception propagates. -/
inductive DeriveFailure where
  | importFailed
  deriving Repr, DecidableEq

/-- Function `deriveEncryptionKeyPair` from `encryption.ts`, with the WebCrypto
primitives as parameters: `sha256` is `crypto.subtle.digest("SHA-256", ·)`,
`hkdf` is the HKDF-SHA-256 `deriveBits` with the fixed salt
`"void-burn-inbox-key"` and info `"ecdh-p256-private"`, and `ecPub` is the
browser's computation of the raw public point from the private scalar.
The signature is hashed to entropy, HKDF-expanded to the scalar bytes; if
the JWK import of that scalar fails the scalar is re-hashed and retried
once (the `catch` block); a second failure propagates. No randomness is
consumed anywhere. -/
def deriveEncryptionKeyPair (sha256 hkdf : Bytes → Bytes) (ecPub : Bytes → Bytes)
    (signature : Bytes) : Except DeriveFailure DerivedKeyPair :=
  let entropy := sha256 signature
  let derivedBits := hkdf entropy
  let dBytes := derivedBits
  match importPrivateScalar dBytes with
  | some d => .ok { publicKey := ecPub d, privateKeyJwkD := base64UrlEncode d }
  | none =>
    let retryDBytes := sha256 derivedBits
    match importPrivateScalar retryDBytes with
    | some d => .ok { publicKey := ecPub d, privateKeyJwkD := base64UrlEncode d }
    | none => .error .importFailed

-- ───────────────────── address derivation ─────────────────────

/-- Little-endian fixed-width byte encoding of an integer
(also what `new BigInt64Array([BigInt(n)]).buffer` holds for `n < 2^63`). -/
def leBytes (n len : Nat) : Bytes := (List.range len).map (fun i => n / 256 ^ i % 256)

/-- Big-endian fixed-width byte encoding (what the spec sentence behind C5
asks for). -/
def beBytes (n len : Nat) : Bytes :=
  (List.range len).map (fun i => n / 256 ^ (len - 1 - i) % 256)

/-- Semantics of `BN.toArrayLike(Buffer, "le", 8)` from `DropSubmit.tsx`: little-endian
bytes, zero-padded to the requested length. -/
def bnToArrayLikeLE : Nat → Nat → Bytes
  | _, 0 => []
  | n, len + 1 => n % 256 :: bnToArrayLikeLE (n / 256) len

/-- A program-derived address. `findProgramAddressSync` hashes the seed
tuple with the program id; it is deterministic and collision-free across
distinct seed tuples, so an address is modelled injectively as its seeds. -/
structure Address where
  seeds : List Bytes
  deriving Repr, DecidableEq

/-- Derivation `PublicKey.findProgramAddressSync(seeds, PROGRAM_ID)`. -/
def findProgramAddress (seeds : List Bytes) : Address := ⟨seeds⟩

/-- Function `getProofPDA` from `program.ts`: seeds `["proof", hash]`. -/
def getProofPDA (hash : Bytes) : Address :=
  findProgramAddress [strBytes "proof", hash]

/-- The submission PDA from `DropSubmit.tsx` `handleSubmit`: seeds
`["submission", org address, BN(submissionId).toArrayLike(Buffer, "le", 8)]`. -/
def getSubmissionPDA (orgAddress : Bytes) (submissionId : Nat) : Address :=
  findProgramAddress
    [strBytes "submission", orgAddress, bnToArrayLikeLE submissionId 8]

-- ───────────────── Stamp.tsx: verification read path ─────────────────

/-- Result of a ledger `getAccountInfo` call: the account data (or `null`),
or a thrown transport error. -/
inductive LedgerRead where
  | success (data : Option Bytes)
  | transportFail
  deriving Repr, DecidableEq

/-- What `handleVerify` reports through `setProofResult`. -/
inductive VerifyOutcome where
  | notFound
  | foundProof (owner : Bytes) (timestamp : Int)
  deriving Repr, DecidableEq

/-- Little-endian byte-string value. -/
def leNat (bytes : Bytes) : Nat := bytes.foldr (fun b acc => acc * 256 + b) 0

/-- Semantics of `DataView.getBigInt64(0, true)`: little-endian signed 64-bit read. -/
def decodeInt64LE (bytes : Bytes) : Int :=
  let u := leNat (bytes.take 8)
  if u < 2 ^ 63 then (u : Int) else (u : Int) - 2 ^ 64

/-- Function `handleVerify` from `Stamp.tsx` (read path): derive the proof PDA from
the file hash and read it.  `null` account → `{found: false}`; account
present → decode owner (bytes 40..72) and timestamp (bytes 72..80, LE);
a thrown read — a transport error — is caught and also reported as
`{found: false}`. -/
def handleVerify (read : Address → LedgerRead) (hash : Bytes) : VerifyOutcome :=
  match read (getProofPDA hash) with
  | .success none => .notFound
  | .success (some data) =>
      .foundProof ((data.drop 40).take 32) (decodeInt64LE ((data.drop 72).take 8))
  | .transportFail => .notFound

-- ───────────── off-chain blob store with local fallback ─────────────

/-- One record of the caller-scoped localStorage fallback store
(the `void-drop-${slug}` / `void-burn-dm-${recipient}` JSON arrays). -/
structure StoredEntry where
  id : Nat
  arweaveHash : String
  encryptedPayload : Bytes
  timestamp : Nat
  deriving Repr, DecidableEq

/-- The Put-with-fallback step of `handleSubmit` (`DropSubmit.tsx`) and
`handleSend` (`BurnSend.tsx`): a successful Irys upload yields the Arweave
transaction id as locator; on failure, the hex SHA-256 content hash of the
sealed bytes becomes the locator and the bytes are pushed onto the local
store. -/
def uploadWithFallback (sha256 : Bytes → Bytes) (uploadResult : Option String)
    (packed : Bytes) (entryId now : Nat) (store : List StoredEntry) :
    String × List StoredEntry :=
  match uploadResult with
  | some txid => (txid, store)
  | none =>
      let arweaveHash := toHex (sha256 packed)
      (arweaveHash, store ++ [⟨entryId, arweaveHash, packed, now⟩])

/-- The Get-with-fallback step of `handleDecrypt` (`DropDashboard.tsx` and
`BurnInbox.tsx`): try Arweave first; on failure, look the locator up in
the caller-scoped local store (`.find(s => s.arweaveHash === hash)`). -/
def fetchPackedWithFallback (fetchResult : Option Bytes)
    (store : List StoredEntry) (arweaveHash : String) : Option Bytes :=
  match fetchResult with
  | some b => some b
  | none =>
      (store.find? (fun s => s.arweaveHash == arweaveHash)).map
        (·.encryptedPayload)

-- ───────────── DropSubmit / BurnSend: on-chain write path ─────────────

/-- What the submit/send handlers leave in the page state. -/
inductive SubmitOutcome where
  | submittedOk
  | failed (errorText : String)
  deriving Repr, DecidableEq

/-- Function `handleSubmit` from `DropSubmit.tsx` after encryption: upload with
fallback, re-fetch the org's counter (`fetchedSubmissionId`), derive the
submission PDA, then issue exactly one `.rpc()` call; any error is caught
and surfaced as `Submission failed: …` — the code contains no retry.
`rpc i` is the chain's answer to the i-th call; the returned `Nat` counts
the rpc calls made. -/
def handleSubmit (sha256 : Bytes → Bytes) (uploadResult : Option String)
    (packed : Bytes) (orgSubmissionCount now : Nat) (store : List StoredEntry)
    (orgAddress : Bytes) (fetchedSubmissionId : Nat)
    (rpc : Nat → Except String Unit) :
    SubmitOutcome × String × List StoredEntry × Nat :=
  let put := uploadWithFallback sha256 uploadResult packed orgSubmissionCount now store
  let _submissionPDA := getSubmissionPDA orgAddress fetchedSubmissionId
  match rpc 0 with
  | .ok _ => (.submittedOk, put.1, put.2, 1)
  | .error msg => (.failed ("Submission failed: " ++ msg), put.1, put.2, 1)

/-- Function `handleSend` from `BurnSend.tsx` after encryption: upload with
fallback, derive the message PDA from the inbox's counter, then issue
exactly one `.rpc()` call; any error is caught and surfaced as
`Failed to send: …` — no retry. -/
def handleSend (sha256 : Bytes → Bytes) (uploadResult : Option String)
    (packed : Bytes) (messageCount now : Nat) (store : List StoredEntry)
    (recipient : Bytes) (rpc : Nat → Except String Unit) :
    SubmitOutcome × String × List StoredEntry × Nat :=
  let put := uploadWithFallback sha256 uploadResult packed messageCount now store
  let _messagePDA := findProgramAddress [strBytes "dm", recipient, leBytes messageCount 8]
  match rpc 0 with
  | .ok _ => (.submittedOk, put.1, put.2, 1)
  | .error msg => (.failed ("Failed to send: " ++ msg), put.1, put.2, 1)

-- ───────────── BurnInbox.tsx: decrypt path and its errors ─────────────

/-- A file attachment of the structured plaintext payload
(`SubmissionPayloadPlain` from `encryption.ts`, `data` a number array). -/
structure FilePlain where
  name : String
  type : String
  data : List Nat
  deriving Repr, DecidableEq

/-- Structure `SubmissionPayloadPlain` from `encryption.ts`. -/
structure SubmissionPayloadPlain where
  message : String
  files : List FilePlain
  deriving Repr, DecidableEq

/-- What `handleDecrypt` in `BurnInbox.tsx` leaves in the page state:
either the decrypted payload, or an error message string set through
`setError` — the only error channel the handler has. -/
inductive InboxDecryptOutcome where
  | decrypted (p : SubmissionPayloadPlain)
  | errorSet (text : String)
  deriving Repr, DecidableEq

/-- The message set when neither Arweave nor the local store has the blob. -/
def notFoundText (msgId : Nat) (arweaveHash : String) : String :=
  "Encrypted data not found for message #" ++ toString msgId ++ ". Hash: "
    ++ arweaveHash.take 16 ++ "..."

/-- The message set by the catch block around decryption and parsing. -/
def decryptFailedText : String :=
  "Decryption failed. The message may be corrupted or the key doesn't match."

/-- Function `handleDecrypt` from `BurnInbox.tsx`: fetch with local fallback (a miss
sets the not-found message and returns), unpack, decrypt with the derived
key, parse; a decryption or parse throw is caught and sets the fixed
decryption-failed message. -/
def handleDecryptInbox (dh : Nat → Bytes → Nat)
    (dec : Nat → Bytes → Bytes → Option Bytes)
    (parseBytes : Bytes → Option SubmissionPayloadPlain)
    (fetchResult : Option Bytes) (store : List StoredEntry)
    (msgId : Nat) (arweaveHash : String) (privateKey : Nat) :
    InboxDecryptOutcome :=
  match fetchPackedWithFallback fetchResult store arweaveHash with
  | none => .errorSet (notFoundText msgId arweaveHash)
  | some packed =>
    let payload := unpackPayload packed
    match decryptSubmission dh dec payload privateKey with
    | none => .errorSet decryptFailedText
    | some bytes =>
      match parseBytes bytes with
      | none => .errorSet decryptFailedText
      | some p => .decrypted p

/-- The outcome kind: `true` exactly on the `errorSet` constructor. -/
def isErrorSet : InboxDecryptOutcome → Bool
  | .errorSet _ => true
  | _ => false

-- ─────────── concrete instances used by counterexamples ───────────

/-- 32 zero bytes. -/
def zeros32 : Bytes := List.replicate 32 0

/-- The P-256 order as 32 big-endian bytes (an invalid scalar: `d = n`). -/
def orderBytes32 : Bytes := beBytes p256Order 32

/-- The scalar 1 as 32 big-endian bytes (a valid scalar). -/
def one32 : Bytes := List.replicate 31 0 ++ [1]

/-- A concrete hash function driving the C7 counterexample: the first
derived scalar is 0 (invalid), the re-hashed scalar is `n` (invalid), and
one further re-hash would give 1 (valid). -/
def shaC7 (b : Bytes) : Bytes :=
  if b = zeros32 then orderBytes32
  else if b = orderBytes32 then one32
  else zeros32

/-- A concrete public-point computation for witnesses. -/
def ecPubC (d : Bytes) : Bytes := 4 :: (d ++ d)

/-- A concrete rpc history: the first call fails with the ledger's
address-in-use conflict, a second call would succeed. -/
def rpcConflictThenOk : Nat → Except String Unit :=
  fun i => if i = 0 then .error "already in use" else .ok ()

-- ───────── encryption.ts: plaintext envelope (JSON) serialization ─────────
--
-- `buildSubmissionPayload` is `TextEncoder().encode(JSON.stringify(payload))`
-- and `parseSubmissionPayload` is `JSON.parse(TextDecoder().decode(bytes))`.
-- UTF-8 encoding/decoding of a well-formed Unicode string is a bijection and
-- the two sides cancel in the round trip, so the byte layer is modelled as
-- the identity and both functions operate on the JSON text.  `JSON.parse` is
-- modelled on the canonical form `JSON.stringify` emits (no whitespace,
-- insertion-order members), the only form the round trip exercises.

/-- The opening brace character, written via its code point. -/
def lbrace : Char := Char.ofNat 123

/-- The closing brace character, written via its code point. -/
def rbrace : Char := Char.ofNat 125

/-- One character escaped as ECMA-262 `QuoteJSONString` does inside
`JSON.stringify`: `"` and `\` get a backslash, the named control escapes
`\b \t \n \f \r`, other controls below 0x20 become `\u00XX` (lowercase
hex), everything else is emitted verbatim. -/
def escChar (c : Char) : List Char :=
  if c = '"' then ['\\', '"']
  else if c = '\\' then ['\\', '\\']
  else if c.toNat < 32 then
    if c = Char.ofNat 8 then ['\\', 'b']
    else if c = Char.ofNat 9 then ['\\', 't']
    else if c = Char.ofNat 10 then ['\\', 'n']
    else if c = Char.ofNat 12 then ['\\', 'f']
    else if c = Char.ofNat 13 then ['\\', 'r']
    else ['\\', 'u', '0', '0', hexDigitChar (c.toNat / 16), hexDigitChar (c.toNat % 16)]
  else [c]

/-- Escape every character of a string body. -/
def escapeChars : List Char → List Char
  | [] => []
  | c :: s => escChar c ++ escapeChars s

/-- A JSON string literal: quote, escaped body, quote. -/
def printString (s : List Char) : List Char :=
  '"' :: (escapeChars s ++ ['"'])

/-- A JSON number for a natural number (decimal, as `JSON.stringify`
prints integers). -/
def printNat (n : Nat) : List Char :=
  if n = 0 then ['0'] else ((Nat.digits 10 n).map Nat.digitChar).reverse

/-- Comma-led concatenation of the elements after the first. -/
def commaCat : List (List Char) → List Char
  | [] => []
  | y :: ys => ',' :: y ++ commaCat ys

/-- Array elements joined with `,` as `JSON.stringify` renders arrays. -/
def joinComma : List (List Char) → List Char
  | [] => []
  | x :: xs => x ++ commaCat xs

/-- A JSON array of numbers. -/
def printNatList (l : List Nat) : List Char :=
  '[' :: (joinComma (l.map printNat) ++ [']'])

/-- One file object: `{"name":…,"type":…,"data":[…]}`. -/
def printFile (f : FilePlain) : List Char :=
  lbrace :: ("\"name\":".data ++ printString f.name.data
    ++ ",\"type\":".data ++ printString f.type.data
    ++ ",\"data\":".data ++ printNatList f.data) ++ [rbrace]

/-- The whole payload object: `{"message":…,"files":[…]}` — member order is
the insertion order of `buildSubmissionPayload`'s object literal, which is
what `JSON.stringify` emits. -/
def printPayloadChars (message : String) (files : List FilePlain) : List Char :=
  lbrace :: ("\"message\":".data ++ printString message.data
    ++ ",\"files\":".data
    ++ ('[' :: (joinComma (files.map printFile) ++ [']']))) ++ [rbrace]

/-- Structure `SubmissionFile` from `encryption.ts` (file attachments before
serialization; `data` is the `Uint8Array` byte list). -/
structure SubmissionFile where
  name : String
  type : String
  data : List Nat
  deriving Repr, DecidableEq

/-- Function `buildSubmissionPayload` from `encryption.ts`: map each file to its
plain record (`Array.from` on the data) and `JSON.stringify` the payload
object. -/
def buildSubmissionPayload (message : String) (files : List SubmissionFile) : String :=
  String.mk (printPayloadChars message
    (files.map (fun f => ⟨f.name, f.type, f.data⟩)))

/-- Hex digit value (JSON string `\uXXXX` escapes; `JSON.stringify` emits
lowercase, `JSON.parse` accepts either case). -/
def hexVal (c : Char) : Option Nat :=
  if 48 ≤ c.toNat ∧ c.toNat ≤ 57 then some (c.toNat - 48)
  else if 97 ≤ c.toNat ∧ c.toNat ≤ 102 then some (c.toNat - 87)
  else if 65 ≤ c.toNat ∧ c.toNat ≤ 70 then some (c.toNat - 55)
  else none

/-- Scan a JSON string body up to the closing quote, decoding escapes. -/
def scanJsonString : List Char → Option (List Char × List Char)
  | [] => none
  | c :: rest =>
    if c = '"' then some ([], rest)
    else if c = '\\' then
      match rest with
      | [] => none
      | e :: rest2 =>
        if e = '"' then (scanJsonString rest2).map (fun p => ('"' :: p.1, p.2))
        else if e = '\\' then (scanJsonString rest2).map (fun p => ('\\' :: p.1, p.2))
        else if e = 'b' then (scanJsonString rest2).map (fun p => (Char.ofNat 8 :: p.1, p.2))
        else if e = 't' then (scanJsonString rest2).map (fun p => (Char.ofNat 9 :: p.1, p.2))
        else if e = 'n' then (scanJsonString rest2).map (fun p => (Char.ofNat 10 :: p.1, p.2))
        else if e = 'f' then (scanJsonString rest2).map (fun p => (Char.ofNat 12 :: p.1, p.2))
        else if e = 'r' then (scanJsonString rest2).map (fun p => (Char.ofNat 13 :: p.1, p.2))
        else if e = 'u' then
          match rest2 with
          | h1 :: h2 :: h3 :: h4 :: rest3 =>
            match hexVal h1, hexVal h2, hexVal h3, hexVal h4 with
            | some v1, some v2, some v3, some v4 =>
              (scanJsonString rest3).map
                (fun p => (Char.ofNat (v1 * 4096 + v2 * 256 + v3 * 16 + v4) :: p.1, p.2))
            | _, _, _, _ => none
          | _ => none
        else none
    else (scanJsonString rest).map (fun p => (c :: p.1, p.2))

/-- Parse a JSON string literal (opening quote then body). -/
def parseJsonString : List Char → Option (List Char × List Char)
  | [] => none
  | c :: rest => if c = '"' then scanJsonString rest else none

/-- Decimal digit? -/
def isDigitChar (c : Char) : Bool := 48 ≤ c.toNat && c.toNat ≤ 57

/-- Parse a (maximal, non-empty) run of decimal digits as a number. -/
def parseNat (input : List Char) : Option (Nat × List Char) :=
  let ds := input.takeWhile isDigitChar
  let rest := input.dropWhile isDigitChar
  if ds.isEmpty then none
  else some (ds.foldl (fun acc c => 10 * acc + (c.toNat - 48)) 0, rest)

/-- Consume a fixed literal. -/
def expectChars : List Char → List Char → Option (List Char)
  | [], input => some input
  | c :: cs, input =>
    match input with
    | [] => none
    | d :: rest => if d = c then expectChars cs rest else none

/-- Tail of a JSON number array, `(, number)* ]`, with recursion fuel (one
unit per element; any fuel above the element count gives the same result). -/
def parseNatsAfterF : Nat → List Char → Option (List Nat × List Char)
  | 0, _ => none
  | _ + 1, ']' :: rest => some ([], rest)
  | fuel + 1, ',' :: rest =>
    match parseNat rest with
    | some (n, r) =>
      match parseNatsAfterF fuel r with
      | some (l, r2) => some (n :: l, r2)
      | none => none
    | none => none
  | _, _ => none

/-- A JSON number array `[…]`. -/
def parseNatList (input : List Char) : Option (List Nat × List Char) :=
  match input with
  | [] => none
  | c :: rest =>
    if c = '[' then
      match rest with
      | [] => none
      | c2 :: rest2 =>
        if c2 = ']' then some ([], rest2)
        else
          match parseNat (c2 :: rest2) with
          | some (n, r) =>
            match parseNatsAfterF (r.length + 1) r with
            | some (l, r2) => some (n :: l, r2)
            | none => none
          | none => none
    else none

/-- One file object `{"name":…,"type":…,"data":[…]}`. -/
def parseFile (input : List Char) : Option (FilePlain × List Char) :=
  match input with
  | [] => none
  | c :: rest =>
    if c = lbrace then
      match expectChars "\"name\":".data rest with
      | none => none
      | some r1 =>
        match parseJsonString r1 with
        | none => none
        | some (nm, r2) =>
          match expectChars ",\"type\":".data r2 with
          | none => none
          | some r3 =>
            match parseJsonString r3 with
            | none => none
            | some (ty, r4) =>
              match expectChars ",\"data\":".data r4 with
              | none => none
              | some r5 =>
                match parseNatList r5 with
                | none => none
                | some (d, r6) =>
                  match r6 with
                  | [] => none
                  | c2 :: r7 =>
                    if c2 = rbrace then some (⟨String.mk nm, String.mk ty, d⟩, r7)
                    else none
    else none

/-- Tail of the files array, `(, file)* ]`, with recursion fuel. -/
def parseFilesAfterF : Nat → List Char → Option (List FilePlain × List Char)
  | 0, _ => none
  | _ + 1, ']' :: rest => some ([], rest)
  | fuel + 1, ',' :: rest =>
    match parseFile rest with
    | some (f, r) =>
      match parseFilesAfterF fuel r with
      | some (l, r2) => some (f :: l, r2)
      | none => none
    | none => none
  | _, _ => none

/-- The files array after its opening `[`. -/
def parseFilesList (input : List Char) : Option (List FilePlain × List Char) :=
  match input with
  | [] => none
  | c :: rest =>
    if c = ']' then some ([], rest)
    else
      match parseFile (c :: rest) with
      | some (f, r) =>
        match parseFilesAfterF (r.length + 1) r with
        | some (l, r2) => some (f :: l, r2)
        | none => none
      | none => none

/-- The payload object `{"message":…,"files":[…]}`, requiring the entire
input to be consumed (as `JSON.parse` does). -/
def parseSubmissionPayloadChars (input : List Char) : Option SubmissionPayloadPlain :=
  match input with
  | [] => none
  | c :: rest =>
    if c = lbrace then
      match expectChars "\"message\":".data rest with
      | none => none
      | some r1 =>
        match parseJsonString r1 with
        | none => none
        | some (msg, r2) =>
          match expectChars ",\"files\":".data r2 with
          | none => none
          | some r3 =>
            match r3 with
            | '[' :: r4 =>
              match parseFilesList r4 with
              | none => none
              | some (fs, r5) =>
                match r5 with
                | [c2] => if c2 = rbrace then some ⟨String.mk msg, fs⟩ else none
                | _ => none
            | _ => none
    else none

/-- Function `parseSubmissionPayload` from `encryption.ts`: decode the bytes
(identity at the string level) and `JSON.parse` the payload. -/
def parseSubmissionPayload (s : String) : Option SubmissionPayloadPlain :=
  parseSubmissionPayloadChars s.data

end VoidProtocol

namespace VoidProtocol

-- ───────────────────── list helper lemmas ─────────────────────

theorem take_append_of_len {α : Type} (l₁ l₂ : List α) (n : Nat)
    (h : l₁.length = n) : (l₁ ++ l₂).take n = l₁ := by
  subst h
  simp

theorem drop_append_of_len {α : Type} (l₁ l₂ : List α) (n : Nat)
    (h : l₁.length = n) : (l₁ ++ l₂).drop n = l₂ := by
  subst h
  simp

theorem take_append_add {α : Type} (l₁ l₂ : List α) (n k : Nat)
    (h : l₁.length = n) : (l₁ ++ l₂).take (n + k) = l₁ ++ l₂.take k := by
  subst h
  induction l₁ with
  | nil => simp
  | cons a l ih =>
    simp only [List.cons_append, List.length_cons]
    have e : l.length + 1 + k = (l.length + k) + 1 := by omega
    rw [e, List.take_succ_cons, ih]

theorem drop_append_add {α : Type} (l₁ l₂ : List α) (n k : Nat)
    (h : l₁.length = n) : (l₁ ++ l₂).drop (n + k) = l₂.drop k := by
  subst h
  induction l₁ with
  | nil => simp
  | cons a l ih =>
    simp only [List.cons_append, List.length_cons]
    have e : l.length + 1 + k = (l.length + k) + 1 := by omega
    rw [e, List.drop_succ_cons, ih]

theorem drop_replicate_add {α : Type} (a : α) (k m : Nat) :
    (List.replicate (k + m) a).drop k = List.replicate m a := by
  induction k with
  | zero => simp
  | succ k ih =>
    rw [Nat.succ_add, List.replicate_succ, List.drop_succ_cons, ih]

-- ───────────────────────── theorems: C9 ─────────────────────────

/-- C9: `packPayload` lays a payload out exactly as
`ephemeral key (bytes 0..64) ‖ iv (bytes 65..76) ‖ ciphertext (77..)`,
with total length `77 + |ciphertext|`, and `unpackPayload` inverts it,
for every payload whose ephemeral key is 65 bytes and IV is 12 bytes. -/
theorem packPayload_wire_format (p : EncryptedPayload)
    (h1 : p.ephemeralPublicKey.length = 65) (h2 : p.iv.length = 12) :
    packPayload p = p.ephemeralPublicKey ++ p.iv ++ p.ciphertext ∧
    (packPayload p).length = 77 + p.ciphertext.length ∧
    unpackPayload (packPayload p) = p := by
  obtain ⟨eph, iv, ct⟩ := p
  simp only at h1 h2
  have w1 : writeAt (List.replicate (65 + 12 + ct.length) 0) eph 0
      = eph ++ List.replicate (12 + ct.length) 0 := by
    unfold writeAt
    rw [List.take_zero, List.nil_append, Nat.zero_add, h1]
    have e : 65 + 12 + ct.length = 65 + (12 + ct.length) := by omega
    rw [e, drop_replicate_add]
  have w2 : writeAt (eph ++ List.replicate (12 + ct.length) 0) iv 65
      = eph ++ iv ++ List.replicate ct.length 0 := by
    unfold writeAt
    rw [h2, take_append_of_len _ _ 65 h1, drop_append_add _ _ 65 12 h1,
      drop_replicate_add]
  have w3 : writeAt (eph ++ iv ++ List.replicate ct.length 0) ct (65 + 12)
      = eph ++ iv ++ ct := by
    unfold writeAt
    have hlen : (eph ++ iv).length = 77 := by simp [h1, h2]
    have e : 65 + 12 = (77 : Nat) := by omega
    rw [e, take_append_of_len _ _ 77 hlen, drop_append_add _ _ 77 ct.length hlen]
    have e2 : (List.replicate ct.length (0 : Nat)).drop ct.length = [] := by simp
    rw [e2]
    simp
  have hpack : packPayload ⟨eph, iv, ct⟩ = eph ++ iv ++ ct := by
    simp only [packPayload]
    rw [w1, w2, w3]
  refine ⟨hpack, ?_, ?_⟩
  · rw [hpack]
    simp [h1, h2]
    omega
  · rw [hpack]
    unfold unpackPayload
    have hassoc : eph ++ iv ++ ct = eph ++ (iv ++ ct) := by simp
    have f1 : (eph ++ iv ++ ct).take 65 = eph := by
      rw [hassoc, take_append_of_len _ _ 65 h1]
    have f2 : ((eph ++ iv ++ ct).drop 65).take 12 = iv := by
      rw [hassoc, drop_append_of_len _ _ 65 h1, take_append_of_len _ _ 12 h2]
    have f3 : (eph ++ iv ++ ct).drop 77 = ct := by
      have e : (77 : Nat) = 65 + 12 := by omega
      rw [hassoc, e, drop_append_add _ _ 65 12 h1, drop_append_of_len _ _ 12 h2]
    rw [f1, f2, f3]

/-- Witness for C9 at a concrete payload. -/
theorem packPayload_wire_format_witness :
    (⟨List.replicate 65 1, List.replicate 12 2, [3, 4, 5]⟩ : EncryptedPayload).ephemeralPublicKey.length = 65 ∧
    unpackPayload (packPayload ⟨List.replicate 65 1, List.replicate 12 2, [3, 4, 5]⟩)
      = ⟨List.replicate 65 1, List.replicate 12 2, [3, 4, 5]⟩ :=
  ⟨by decide,
   (packPayload_wire_format ⟨List.replicate 65 1, List.replicate 12 2, [3, 4, 5]⟩
     (by decide) (by decide)).2.2⟩

-- ───────────────────────── theorems: C1 ─────────────────────────

/-- C1: round-trip seal/unseal.  For every plaintext `p` and every P-256
recipient key pair (public key `pub priv` for private scalar `priv`),
decrypting the payload sealed to the public key with the matching private
key recovers `p`, for any primitives satisfying the WebCrypto ECDH + AES-GCM
contract (commutative key agreement; AEAD decryption inverts encryption
under the same key and IV). -/
theorem decryptSubmission_encryptForOrg
    (pub : Nat → Bytes) (dh : Nat → Bytes → Nat)
    (enc : Nat → Bytes → Bytes → Bytes) (dec : Nat → Bytes → Bytes → Option Bytes)
    (hdh : ∀ a b, dh a (pub b) = dh b (pub a))
    (hdec : ∀ k iv m, dec k iv (enc k iv m) = some m)
    (p : Bytes) (priv eph : Nat) (iv : Bytes) :
    decryptSubmission dh dec (encryptForOrg pub dh enc p (pub priv) eph iv) priv
      = some p := by
  simp only [decryptSubmission, encryptForOrg]
  rw [hdh priv eph, hdec]

/-- Witness for C1 on the concrete crypto model. -/
theorem decryptSubmission_encryptForOrg_witness :
    decryptSubmission dhC decC
      (encryptForOrg pubC dhC encC [1, 2, 3] (pubC 5) 7 [9]) 5 = some [1, 2, 3] :=
  decryptSubmission_encryptForOrg pubC dhC encC decC
    (fun a b => by simp [dhC, pubC, Nat.mul_comm])
    (fun k iv m => by simp [decC, encC])
    [1, 2, 3] 5 7 [9]

-- ───────────────────────── theorems: C6 ─────────────────────────

/-- C6: signature-derived key derivation is deterministic.  The embedding
of `deriveEncryptionKeyPair` consumes no randomness — its output is a
function of the protocol-fixed primitives (SHA-256, HKDF with fixed salt
and info, the P-256 point computation) and the signature bytes alone — so
two calls on the same signature bytes, in any two sessions sharing those
protocol constants, return identical public keys and identical
private-key JWKs. -/
theorem deriveEncryptionKeyPair_deterministic
    (sha256 hkdf ecPub : Bytes → Bytes) (s t : Bytes) (h : s = t) :
    deriveEncryptionKeyPair sha256 hkdf ecPub s
      = deriveEncryptionKeyPair sha256 hkdf ecPub t := by
  rw [h]

/-- Witness for C6 at a concrete signature. -/
theorem deriveEncryptionKeyPair_deterministic_witness :
    ([1, 2] : Bytes) = [1, 2] ∧
    deriveEncryptionKeyPair shaC7 id ecPubC [1, 2]
      = deriveEncryptionKeyPair shaC7 id ecPubC [1, 2] :=
  ⟨rfl, deriveEncryptionKeyPair_deterministic shaC7 id ecPubC [1, 2] [1, 2] rfl⟩

-- ───────────────────────── theorems: C7 ─────────────────────────

/-- C7 counterexample: the code retries the re-hashed scalar only once, it
does not retry "until a valid scalar is obtained".  Under primitives where
the first scalar is 0 (invalid) and the re-hashed scalar is the group
order (invalid), derivation surfaces the raw import failure — although one
further re-hash (which rejection sampling as claimed would perform) yields
the valid scalar 1.  No `DerivationError` kind exists to be surfaced. -/
theorem deriveEncryptionKeyPair_not_until_valid :
    deriveEncryptionKeyPair shaC7 id ecPubC [42] = .error .importFailed ∧
    importPrivateScalar (shaC7 (id (shaC7 (id (shaC7 [42]))))) = some one32 := by
  constructor
  · rfl
  · rfl

/-- C7 amended: when the first derived scalar is invalid the derivation
re-hashes and retries exactly once; if the retried scalar is also invalid
the import failure surfaces directly (the code has no `DerivationError`
kind). -/
theorem deriveEncryptionKeyPair_single_retry
    (sha256 hkdf ecPub : Bytes → Bytes) (s : Bytes)
    (h1 : importPrivateScalar (hkdf (sha256 s)) = none)
    (h2 : importPrivateScalar (sha256 (hkdf (sha256 s))) = none) :
    deriveEncryptionKeyPair sha256 hkdf ecPub s = .error .importFailed := by
  simp [deriveEncryptionKeyPair, h1, h2]

/-- Witness for the amended C7 at the concrete primitives. -/
theorem deriveEncryptionKeyPair_single_retry_witness :
    deriveEncryptionKeyPair shaC7 id ecPubC [43] = .error .importFailed :=
  deriveEncryptionKeyPair_single_retry shaC7 id ecPubC [43] rfl rfl

-- ───────────────────────── theorems: C4 ─────────────────────────

/-- C4 counterexample: `handleVerify` reports a transport error while
reading the ledger exactly as it reports absence — both produce the
not-found outcome, so the two are conflated. -/
theorem handleVerify_conflates_transport_and_absence :
    handleVerify (fun _ => .transportFail) (List.replicate 32 0)
       = handleVerify (fun _ => .success none) (List.replicate 32 0) ∧
    handleVerify (fun _ => .transportFail) (List.replicate 32 0)
       = .notFound :=
  ⟨rfl, rfl⟩

/-- C4 amended: the verification read path derives the expected proof
address and reads it; absence of the account is reported as the valid
not-found outcome — and a transport error while reading is reported the
same way, not distinctly. -/
theorem handleVerify_notFound (read : Address → LedgerRead) (hash : Bytes)
    (h : read (getProofPDA hash) = .transportFail ∨
         read (getProofPDA hash) = .success none) :
    handleVerify read hash = .notFound := by
  rcases h with h | h <;> simp [handleVerify, h]

/-- Witness for the amended C4. -/
theorem handleVerify_notFound_witness :
    handleVerify (fun _ => .transportFail) (List.replicate 32 7) = .notFound :=
  handleVerify_notFound (fun _ => .transportFail) (List.replicate 32 7) (Or.inl rfl)

-- ───────────────────────── theorems: C5 ─────────────────────────

/-- C5 counterexample: at sequence id 1 the submission PDA seed is the
little-endian encoding `[1,0,0,0,0,0,0,0]`, not the big-endian encoding
`[0,0,0,0,0,0,0,1]` the claim states, so the derived address differs from
the claimed one. -/
theorem getSubmissionPDA_not_big_endian :
    getSubmissionPDA (List.replicate 32 0) 1
      ≠ findProgramAddress
          [strBytes "submission", List.replicate 32 0, beBytes 1 8] := by
  decide

theorem bnToArrayLikeLE_eq_leBytes (len : Nat) :
    ∀ n : Nat, bnToArrayLikeLE n len = leBytes n len := by
  induction len with
  | zero => intro n; rfl
  | succ len ih =>
    intro n
    rw [bnToArrayLikeLE, leBytes, List.range_succ_eq_map, List.map_cons]
    simp only [pow_zero, Nat.div_one, List.map_map]
    congr 1
    rw [ih (n / 256), leBytes]
    apply List.map_congr_left
    intro i _
    simp only [Function.comp_apply]
    rw [Nat.div_div_eq_div_mul, ← pow_succ']

/-- C5 amended: the submission address is derived from the tag
`"submission"`, the organization address, and the sequence id encoded as
fixed-width (8-byte) little-endian bytes. -/
theorem getSubmissionPDA_little_endian (orgAddress : Bytes) (submissionId : Nat)
    (h : submissionId < 2 ^ 64) :
    getSubmissionPDA orgAddress submissionId
      = findProgramAddress
          [strBytes "submission", orgAddress, leBytes submissionId 8] := by
  unfold getSubmissionPDA
  rw [bnToArrayLikeLE_eq_leBytes]

/-- Witness for the amended C5. -/
theorem getSubmissionPDA_little_endian_witness :
    getSubmissionPDA (List.replicate 32 0) 1
      = findProgramAddress
          [strBytes "submission", List.replicate 32 0, leBytes 1 8] :=
  getSubmissionPDA_little_endian (List.replicate 32 0) 1 (by decide)

-- ───────────────────────── theorems: C8 ─────────────────────────

/-- C8 counterexample: when the first rpc call fails with the ledger's
address-in-use conflict, `handleSubmit` surfaces the error after exactly
one call — it does not re-read the counter and retry, even though the next
call (`rpcConflictThenOk 1`) would have succeeded. -/
theorem handleSubmit_no_retry :
    (handleSubmit (fun _ => []) none [1] 0 0 [] (List.replicate 32 0) 0
        rpcConflictThenOk).1 = .failed "Submission failed: already in use" ∧
    (handleSubmit (fun _ => []) none [1] 0 0 [] (List.replicate 32 0) 0
        rpcConflictThenOk).2.2.2 = 1 ∧
    rpcConflictThenOk 1 = .ok () :=
  ⟨rfl, rfl, rfl⟩

/-- C8 amended: commitment/submission/message-send operations make exactly
one rpc call; a failure — concurrency conflict included — is surfaced to
the caller immediately, with no counter re-read and no retry. -/
theorem submit_send_surface_error_without_retry
    (sha256 : Bytes → Bytes) (uploadResult : Option String) (packed : Bytes)
    (cnt now : Nat) (store : List StoredEntry) (orgAddress recipient : Bytes)
    (fid : Nat) (rpc : Nat → Except String Unit) (m : String)
    (h : rpc 0 = .error m) :
    (handleSubmit sha256 uploadResult packed cnt now store orgAddress fid rpc).1
        = .failed ("Submission failed: " ++ m) ∧
    (handleSubmit sha256 uploadResult packed cnt now store orgAddress fid rpc).2.2.2 = 1 ∧
    (handleSend sha256 uploadResult packed cnt now store recipient rpc).1
        = .failed ("Failed to send: " ++ m) ∧
    (handleSend sha256 uploadResult packed cnt now store recipient rpc).2.2.2 = 1 := by
  refine ⟨?_, ?_, ?_, ?_⟩ <;> simp [handleSubmit, handleSend, h]

/-- Witness for the amended C8. -/
theorem submit_send_surface_error_without_retry_witness :
    (handleSubmit (fun _ => []) none [1] 0 0 [] (List.replicate 32 0) 0
        rpcConflictThenOk).1 = .failed ("Submission failed: " ++ "already in use") ∧
    (handleSubmit (fun _ => []) none [1] 0 0 [] (List.replicate 32 0) 0
        rpcConflictThenOk).2.2.2 = 1 ∧
    (handleSend (fun _ => []) none [1] 0 0 [] (List.replicate 32 0)
        rpcConflictThenOk).1 = .failed ("Failed to send: " ++ "already in use") ∧
    (handleSend (fun _ => []) none [1] 0 0 [] (List.replicate 32 0)
        rpcConflictThenOk).2.2.2 = 1 :=
  submit_send_surface_error_without_retry (fun _ => []) none [1] 0 0 []
    (List.replicate 32 0) (List.replicate 32 0) 0 rpcConflictThenOk
    "already in use" rfl

-- ───────────────────────── theorems: C3 ─────────────────────────

theorem find_content_addressed (locator : String) (packed : Bytes)
    (entry : StoredEntry) (hentry : entry.arweaveHash = locator)
    (hpay : entry.encryptedPayload = packed) (store : List StoredEntry)
    (h : ∀ e ∈ store, e.arweaveHash = locator → e.encryptedPayload = packed) :
    ((store ++ [entry]).find? (fun s => s.arweaveHash == locator)).map
      (·.encryptedPayload) = some packed := by
  induction store with
  | nil =>
    simp [List.find?, hentry, hpay]
  | cons e es ih =>
    by_cases hc : e.arweaveHash = locator
    · have hp := h e (by simp) hc
      rw [List.cons_append, List.find?_cons_of_pos _ (by simp [hc])]
      simp [hp]
    · rw [List.cons_append, List.find?_cons_of_neg _ (by simp [hc])]
      exact ih (fun x hx hax => h x (by simp [hx]) hax)

/-- C3: when the external Put fails, the locator recorded on-chain is the
hex SHA-256 content hash of the sealed bytes and those bytes are appended
to the caller-scoped local store; when the external Get then fails, the
local store is consulted by that same locator string, so the payload
stored via the fallback is retrieved intact.  The hypothesis is the
content-addressing invariant of the store: an existing entry under this
locator holds the same bytes (hash collisions excluded). -/
theorem fallback_store_roundtrip (sha256 : Bytes → Bytes) (packed : Bytes)
    (cnt now : Nat) (store : List StoredEntry)
    (h : ∀ e ∈ store, e.arweaveHash = toHex (sha256 packed) →
         e.encryptedPayload = packed) :
    (uploadWithFallback sha256 none packed cnt now store).1
        = toHex (sha256 packed) ∧
    fetchPackedWithFallback none
        (uploadWithFallback sha256 none packed cnt now store).2
        (uploadWithFallback sha256 none packed cnt now store).1
      = some packed := by
  constructor
  · rfl
  · simp only [uploadWithFallback, fetchPackedWithFallback]
    exact find_content_addressed (toHex (sha256 packed)) packed
      ⟨cnt, toHex (sha256 packed), packed, now⟩ rfl rfl store h

/-- Witness for C3 on an empty local store. -/
theorem fallback_store_roundtrip_witness :
    (uploadWithFallback (fun _ => [0]) none [9] 0 0 []).1 = toHex [0] ∧
    fetchPackedWithFallback none
        (uploadWithFallback (fun _ => [0]) none [9] 0 0 []).2
        (uploadWithFallback (fun _ => [0]) none [9] 0 0 []).1 = some [9] := by
  have base := fallback_store_roundtrip (fun _ => [0]) [9] 0 0 []
    (by intro e he; cases he)
  exact ⟨base.1.trans (by rfl), base.2⟩

-- ───────────────────────── theorems: C2 ─────────────────────────

theorem string_data_append (a b : String) : (a ++ b).data = a.data ++ b.data := rfl

theorem litE_cons : "Encrypted data not found for message #".data
    = 'E' :: "ncrypted data not found for message #".data := by decide

theorem decryptFailedText_ne_notFoundText (msgId : Nat) (hash : String) :
    decryptFailedText ≠ notFoundText msgId hash := by
  intro h
  have h2 := congrArg String.data h
  unfold decryptFailedText notFoundText at h2
  rw [string_data_append, string_data_append, string_data_append,
    string_data_append, litE_cons] at h2
  have h3 := congrArg List.head? h2
  simp only [List.append_assoc, List.cons_append, List.head?_cons] at h3
  exact absurd (Option.some.inj h3) (by decide)

/-- C2 counterexample: in the inbox decrypt handler an integrity failure
of the sealed payload (wrong key / tampered data) and a transport/lookup
failure both surface through the same channel — an `errorSet` message
string — so they are distinguishable only by message text, not by kind;
there is no `AuthenticationError` kind. -/
theorem handleDecryptInbox_failures_same_kind :
    isErrorSet (handleDecryptInbox dhC decC (fun _ => none)
        (some (List.replicate 77 0 ++ [7, 8, 9])) [] 0 "h" 5) = true ∧
    isErrorSet (handleDecryptInbox dhC decC (fun _ => none)
        none [] 0 "h" 5) = true ∧
    handleDecryptInbox dhC decC (fun _ => none)
        (some (List.replicate 77 0 ++ [7, 8, 9])) [] 0 "h" 5
      ≠ handleDecryptInbox dhC decC (fun _ => none) none [] 0 "h" 5 := by
  refine ⟨rfl, rfl, ?_⟩
  decide

/-- C2 amended: when the sealed bytes are available but AES-GCM rejects
them (wrong private key or tampered ciphertext/nonce), the handler never
returns any plaintext: it sets the fixed decryption-failed message, whose
text — and only the text, not a typed kind — differs from the
transport/lookup not-found message. -/
theorem handleDecryptInbox_auth_failure (dh : Nat → Bytes → Nat)
    (dec : Nat → Bytes → Bytes → Option Bytes)
    (parseBytes : Bytes → Option SubmissionPayloadPlain)
    (packed : Bytes) (store : List StoredEntry) (msgId : Nat) (hash : String)
    (priv : Nat)
    (hdec : decryptSubmission dh dec (unpackPayload packed) priv = none) :
    handleDecryptInbox dh dec parseBytes (some packed) store msgId hash priv
        = .errorSet decryptFailedText ∧
    (∀ p, handleDecryptInbox dh dec parseBytes (some packed) store msgId hash priv
        ≠ .decrypted p) ∧
    decryptFailedText ≠ notFoundText msgId hash := by
  have hres : handleDecryptInbox dh dec parseBytes (some packed) store msgId hash priv
      = .errorSet decryptFailedText := by
    simp [handleDecryptInbox, fetchPackedWithFallback, hdec]
  exact ⟨hres, fun p hp => by rw [hres] at hp; exact absurd hp (by simp),
    decryptFailedText_ne_notFoundText msgId hash⟩

/-- Witness for the amended C2: a concrete payload rejected by the AEAD
(the concrete model rejects since the key does not match). -/
theorem handleDecryptInbox_auth_failure_witness :
    handleDecryptInbox dhC decC (fun _ => none)
        (some (List.replicate 77 0 ++ [7, 8, 9])) [] 0 "h" 5
      = .errorSet decryptFailedText :=
  (handleDecryptInbox_auth_failure dhC decC (fun _ => none)
    (List.replicate 77 0 ++ [7, 8, 9]) [] 0 "h" 5 (by decide)).1

-- ───────────── theorems: C10, string escaping round trip ─────────────

theorem hexVal_hexDigitChar (d : Nat) (h : d < 16) :
    hexVal (hexDigitChar d) = some d := by
  interval_cases d <;> rfl

theorem scan_quote (t : List Char) : scanJsonString ('"' :: t) = some ([], t) := by
  rw [scanJsonString.eq_def]
  simp +decide

theorem scan_esc_quote (t : List Char) :
    scanJsonString ('\\' :: '"' :: t)
      = (scanJsonString t).map (fun p => ('"' :: p.1, p.2)) := by
  rw [scanJsonString.eq_def]
  simp +decide

theorem scan_esc_bslash (t : List Char) :
    scanJsonString ('\\' :: '\\' :: t)
      = (scanJsonString t).map (fun p => ('\\' :: p.1, p.2)) := by
  rw [scanJsonString.eq_def]
  simp +decide

theorem scan_esc_b (t : List Char) :
    scanJsonString ('\\' :: 'b' :: t)
      = (scanJsonString t).map (fun p => (Char.ofNat 8 :: p.1, p.2)) := by
  rw [scanJsonString.eq_def]
  simp +decide

theorem scan_esc_t (t : List Char) :
    scanJsonString ('\\' :: 't' :: t)
      = (scanJsonString t).map (fun p => (Char.ofNat 9 :: p.1, p.2)) := by
  rw [scanJsonString.eq_def]
  simp +decide

theorem scan_esc_n (t : List Char) :
    scanJsonString ('\\' :: 'n' :: t)
      = (scanJsonString t).map (fun p => (Char.ofNat 10 :: p.1, p.2)) := by
  rw [scanJsonString.eq_def]
  simp +decide

theorem scan_esc_f (t : List Char) :
    scanJsonString ('\\' :: 'f' :: t)
      = (scanJsonString t).map (fun p => (Char.ofNat 12 :: p.1, p.2)) := by
  rw [scanJsonString.eq_def]
  simp +decide

theorem scan_esc_r (t : List Char) :
    scanJsonString ('\\' :: 'r' :: t)
      = (scanJsonString t).map (fun p => (Char.ofNat 13 :: p.1, p.2)) := by
  rw [scanJsonString.eq_def]
  simp +decide

theorem scan_esc_u (d1 d2 : Nat) (hd1 : d1 < 16) (hd2 : d2 < 16) (t : List Char) :
    scanJsonString ('\\' :: 'u' :: '0' :: '0' :: hexDigitChar d1 :: hexDigitChar d2 :: t)
      = (scanJsonString t).map
          (fun p => (Char.ofNat (d1 * 16 + d2) :: p.1, p.2)) := by
  rw [scanJsonString.eq_def]
  simp +decide
  rw [show hexVal '0' = some 0 from rfl,
    hexVal_hexDigitChar d1 hd1, hexVal_hexDigitChar d2 hd2]
  simp

theorem scan_raw (c : Char) (t : List Char) (h1 : ¬c = '"') (h2 : ¬c = '\\') :
    scanJsonString (c :: t)
      = (scanJsonString t).map (fun p => (c :: p.1, p.2)) := by
  rw [scanJsonString.eq_def]
  simp [h1, h2]

theorem scanJsonString_escape (s : List Char) (rest : List Char) :
    scanJsonString (escapeChars s ++ '"' :: rest) = some (s, rest) := by
  induction s with
  | nil =>
    simp only [escapeChars, List.nil_append]
    exact scan_quote rest
  | cons c s ih =>
    simp only [escapeChars, List.append_assoc]
    unfold escChar
    by_cases h1 : c = '"'
    · simp +decide only [h1, if_true, if_false, List.cons_append, List.nil_append]
      rw [scan_esc_quote, ih]
      rfl
    · by_cases h2 : c = '\\'
      · simp +decide only [h1, h2, if_true, if_false, List.cons_append, List.nil_append]
        rw [scan_esc_bslash, ih]
        rfl
      · by_cases h3 : c.toNat < 32
        · simp only [h1, h2, h3, if_false, if_true]
          by_cases hb : c = Char.ofNat 8
          · simp +decide only [hb, if_true, if_false, List.cons_append, List.nil_append]
            rw [scan_esc_b, ih]
            rfl
          · by_cases ht : c = Char.ofNat 9
            · simp +decide only [hb, ht, if_true, if_false, List.cons_append, List.nil_append]
              rw [scan_esc_t, ih]
              rfl
            · by_cases hn : c = Char.ofNat 10
              · simp +decide only [hb, ht, hn, if_true, if_false, List.cons_append, List.nil_append]
                rw [scan_esc_n, ih]
                rfl
              · by_cases hf : c = Char.ofNat 12
                · simp +decide only [hb, ht, hn, hf, if_true, if_false, List.cons_append, List.nil_append]
                  rw [scan_esc_f, ih]
                  rfl
                · by_cases hr : c = Char.ofNat 13
                  · simp +decide only [hb, ht, hn, hf, hr, if_true, if_false, List.cons_append, List.nil_append]
                    rw [scan_esc_r, ih]
                    rfl
                  · simp +decide only [hb, ht, hn, hf, hr, if_true, if_false, List.cons_append, List.nil_append]
                    rw [scan_esc_u (c.toNat / 16) (c.toNat % 16) (by omega) (by omega), ih]
                    have he : c.toNat / 16 * 16 + c.toNat % 16 = c.toNat := by omega
                    rw [he, Char.ofNat_toNat]
                    rfl
        · simp only [h1, h2, h3, if_false, List.cons_append, List.nil_append]
          rw [scan_raw c _ h1 h2, ih]
          rfl

theorem parseJsonString_print (s rest : List Char) :
    parseJsonString (printString s ++ rest) = some (s, rest) := by
  show parseJsonString ('"' :: (escapeChars s ++ ['"']) ++ rest) = _
  have e : ('"' :: (escapeChars s ++ ['"'])) ++ rest
      = '"' :: (escapeChars s ++ '"' :: rest) := by
    simp
  rw [e, parseJsonString, if_pos rfl, scanJsonString_escape]

-- ───────────── theorems: C10, number parsing round trip ─────────────

theorem isDigitChar_digitChar (d : Nat) (h : d < 10) :
    isDigitChar (Nat.digitChar d) = true := by
  interval_cases d <;> rfl

theorem digitChar_toNat_sub (d : Nat) (h : d < 10) :
    (Nat.digitChar d).toNat - 48 = d := by
  interval_cases d <;> rfl

theorem printNat_ne_nil (n : Nat) : printNat n ≠ [] := by
  unfold printNat
  by_cases h : n = 0
  · simp [h]
  · simp only [h, if_false]
    simp [Nat.digits_ne_nil_iff_ne_zero.mpr h]

theorem printNat_all_digits (n : Nat) :
    ∀ c ∈ printNat n, isDigitChar c = true := by
  intro c hc
  unfold printNat at hc
  by_cases h : n = 0
  · simp [h] at hc
    rw [hc]
    rfl
  · simp only [h, if_false, List.mem_reverse, List.mem_map] at hc
    obtain ⟨d, hd, hdc⟩ := hc
    rw [← hdc]
    exact isDigitChar_digitChar d (Nat.digits_lt_base (by norm_num) hd)

theorem takeWhile_append_all {α : Type} (p : α → Bool) (xs ys : List α)
    (hxs : ∀ x ∈ xs, p x = true) (hys : ∀ c, ys.head? = some c → p c = false) :
    (xs ++ ys).takeWhile p = xs := by
  induction xs with
  | nil =>
    simp only [List.nil_append]
    cases ys with
    | nil => rfl
    | cons y t =>
      rw [List.takeWhile_cons, hys y rfl]
      simp
  | cons x xs ih =>
    rw [List.cons_append, List.takeWhile_cons, hxs x (by simp)]
    simp only [if_true]
    rw [ih (fun a ha => hxs a (by simp [ha]))]

theorem dropWhile_append_all {α : Type} (p : α → Bool) (xs ys : List α)
    (hxs : ∀ x ∈ xs, p x = true) (hys : ∀ c, ys.head? = some c → p c = false) :
    (xs ++ ys).dropWhile p = ys := by
  induction xs with
  | nil =>
    simp only [List.nil_append]
    cases ys with
    | nil => rfl
    | cons y t =>
      rw [List.dropWhile_cons, hys y rfl]
      simp
  | cons x xs ih =>
    rw [List.cons_append, List.dropWhile_cons, hxs x (by simp)]
    simp only [if_true]
    exact ih (fun a ha => hxs a (by simp [ha]))

theorem foldl_digitChars (ds : List Nat) (hds : ∀ d ∈ ds, d < 10) (a : Nat) :
    ((ds.map Nat.digitChar).reverse).foldl (fun acc c => 10 * acc + (c.toNat - 48)) a
      = a * 10 ^ ds.length + Nat.ofDigits 10 ds := by
  induction ds generalizing a with
  | nil => simp [Nat.ofDigits_nil]
  | cons d ds ih =>
    rw [List.map_cons, List.reverse_cons, List.foldl_append]
    rw [ih (fun x hx => hds x (by simp [hx])) a]
    simp only [List.foldl_cons, List.foldl_nil]
    rw [digitChar_toNat_sub d (hds d (by simp))]
    rw [Nat.ofDigits_cons, List.length_cons, pow_succ]
    ring

theorem parseNat_print (n : Nat) (rest : List Char)
    (hrest : ∀ c, rest.head? = some c → isDigitChar c = false) :
    parseNat (printNat n ++ rest) = some (n, rest) := by
  unfold parseNat
  rw [takeWhile_append_all _ _ _ (printNat_all_digits n) hrest,
    dropWhile_append_all _ _ _ (printNat_all_digits n) hrest]
  rw [if_neg (by simpa using printNat_ne_nil n)]
  have hval : (printNat n).foldl (fun acc c => 10 * acc + (c.toNat - 48)) 0 = n := by
    by_cases h : n = 0
    · rw [h]
      rfl
    · unfold printNat
      rw [if_neg h]
      rw [foldl_digitChars _ (fun d hd => Nat.digits_lt_base (by norm_num) hd) 0]
      rw [Nat.ofDigits_digits]
      simp
  rw [hval]

theorem commaCat_length_ge (xs : List (List Char)) :
    xs.length ≤ (commaCat xs).length := by
  induction xs with
  | nil => simp
  | cons y ys ih =>
    show ys.length + 1 ≤ (',' :: (y ++ commaCat ys)).length
    simp only [List.length_cons, List.length_append]
    omega

theorem head_numTail_not_digit (ls : List Nat) (rest : List Char) :
    ∀ c, (commaCat (ls.map printNat) ++ ']' :: rest).head? = some c →
      isDigitChar c = false := by
  intro c hc
  cases ls with
  | nil =>
    simp only [List.map_nil, commaCat, List.nil_append, List.head?_cons] at hc
    cases hc
    rfl
  | cons n ls =>
    simp only [List.map_cons, commaCat, List.cons_append, List.head?_cons] at hc
    cases hc
    rfl

theorem parseNatsAfterF_print (ls : List Nat) (rest : List Char) (fuel : Nat)
    (hf : ls.length + 1 ≤ fuel) :
    parseNatsAfterF fuel (commaCat (ls.map printNat) ++ ']' :: rest)
      = some (ls, rest) := by
  induction ls generalizing fuel with
  | nil =>
    cases fuel with
    | zero => omega
    | succ k =>
      simp [commaCat, parseNatsAfterF]
  | cons n ls ih =>
    cases fuel with
    | zero => simp at hf
    | succ k =>
      have e : commaCat ((n :: ls).map printNat) ++ ']' :: rest
          = ',' :: (printNat n ++ (commaCat (ls.map printNat) ++ ']' :: rest)) := by
        simp [commaCat, List.append_assoc]
      rw [e]
      show (match parseNat (printNat n ++ (commaCat (ls.map printNat) ++ ']' :: rest)) with
        | some (m, r) =>
          match parseNatsAfterF k r with
          | some (l, r2) => some (m :: l, r2)
          | none => none
        | none => none) = _
      rw [parseNat_print n _ (head_numTail_not_digit ls rest)]
      have hk : ls.length + 1 ≤ k := by
        simp only [List.length_cons] at hf
        omega
      simp [ih k hk]

theorem parseNatList_print (l : List Nat) (rest : List Char) :
    parseNatList (printNatList l ++ rest) = some (l, rest) := by
  cases l with
  | nil =>
    show parseNatList ('[' :: (joinComma ([].map printNat) ++ [']']) ++ rest) = _
    simp only [List.map_nil, joinComma, List.nil_append, List.cons_append]
    rw [parseNatList.eq_def]
    simp +decide
  | cons n ls =>
    have e : printNatList (n :: ls) ++ rest
        = '[' :: (printNat n ++ (commaCat (ls.map printNat) ++ ']' :: rest)) := by
      show '[' :: (joinComma ((n :: ls).map printNat) ++ [']']) ++ rest = _
      simp [joinComma, List.append_assoc]
    rw [e]
    obtain ⟨hd, tl, hcons⟩ := List.exists_cons_of_ne_nil (printNat_ne_nil n)
    have hdig : isDigitChar hd = true := by
      apply printNat_all_digits n
      rw [hcons]
      simp
    have hne : ¬hd = ']' := by
      intro hcontra
      rw [hcontra] at hdig
      exact absurd hdig (by decide)
    rw [parseNatList.eq_def, hcons]
    simp only [List.cons_append]
    simp +decide only [hne, if_true, if_false]
    rw [← List.cons_append, ← hcons]
    rw [parseNat_print n _ (head_numTail_not_digit ls rest)]
    have h1 := commaCat_length_ge (ls.map printNat)
    simp only [List.length_map] at h1
    simp [parseNatsAfterF_print ls rest
      ((commaCat (List.map printNat ls)).length + (rest.length + 1) + 1) (by omega)]

-- ───────────── theorems: C10, object and payload round trip ─────────────

theorem expectChars_self_append (cs ys : List Char) :
    expectChars cs (cs ++ ys) = some ys := by
  induction cs with
  | nil => rfl
  | cons c cs ih =>
    rw [List.cons_append]
    simp [expectChars, ih]

theorem string_mk_data (s : String) : String.mk s.data = s := rfl

theorem parseFile_print (f : FilePlain) (rest : List Char) :
    parseFile (printFile f ++ rest) = some (f, rest) := by
  have e : printFile f ++ rest
      = lbrace :: ("\"name\":".data ++ (printString f.name.data
        ++ (",\"type\":".data ++ (printString f.type.data
        ++ (",\"data\":".data ++ (printNatList f.data ++ (rbrace :: rest))))))) := by
    simp [printFile, List.append_assoc]
  rw [e, parseFile.eq_def]
  simp +decide only [string_mk_data, expectChars_self_append, parseJsonString_print,
    parseNatList_print, if_true, if_false]

theorem parseFilesAfterF_print (fs : List FilePlain) (rest : List Char) (fuel : Nat)
    (hf : fs.length + 1 ≤ fuel) :
    parseFilesAfterF fuel (commaCat (fs.map printFile) ++ ']' :: rest)
      = some (fs, rest) := by
  induction fs generalizing fuel with
  | nil =>
    cases fuel with
    | zero => omega
    | succ k =>
      simp [commaCat, parseFilesAfterF]
  | cons f fs ih =>
    cases fuel with
    | zero => simp at hf
    | succ k =>
      have e : commaCat ((f :: fs).map printFile) ++ ']' :: rest
          = ',' :: (printFile f ++ (commaCat (fs.map printFile) ++ ']' :: rest)) := by
        simp [commaCat, List.append_assoc]
      rw [e]
      show (match parseFile (printFile f ++ (commaCat (fs.map printFile) ++ ']' :: rest)) with
        | some (g, r) =>
          match parseFilesAfterF k r with
          | some (l, r2) => some (g :: l, r2)
          | none => none
        | none => none) = _
      rw [parseFile_print f _]
      have hk : fs.length + 1 ≤ k := by
        simp only [List.length_cons] at hf
        omega
      simp [ih k hk]

theorem parseFilesList_print (fs : List FilePlain) (rest : List Char) :
    parseFilesList (joinComma (fs.map printFile) ++ ']' :: rest) = some (fs, rest) := by
  cases fs with
  | nil =>
    simp only [List.map_nil, joinComma, List.nil_append]
    rw [parseFilesList.eq_def]
    simp +decide
  | cons f fs =>
    have e : joinComma ((f :: fs).map printFile) ++ ']' :: rest
        = printFile f ++ (commaCat (fs.map printFile) ++ ']' :: rest) := by
      simp [joinComma, List.append_assoc]
    rw [e]
    have e2 : printFile f ++ (commaCat (fs.map printFile) ++ ']' :: rest)
        = lbrace :: (("\"name\":".data ++ printString f.name.data
          ++ ",\"type\":".data ++ printString f.type.data
          ++ ",\"data\":".data ++ printNatList f.data ++ [rbrace])
          ++ (commaCat (fs.map printFile) ++ ']' :: rest)) := by
      simp [printFile, List.append_assoc]
    rw [e2, parseFilesList.eq_def]
    simp +decide only [if_true, if_false]
    rw [← e2]
    rw [parseFile_print f _]
    have h1 := commaCat_length_ge (fs.map printFile)
    simp only [List.length_map] at h1
    simp [parseFilesAfterF_print fs rest
      ((commaCat (List.map printFile fs)).length + (rest.length + 1) + 1) (by omega)]

theorem parseSubmissionPayloadChars_print (m : String) (files : List FilePlain) :
    parseSubmissionPayloadChars (printPayloadChars m files) = some ⟨m, files⟩ := by
  have e : printPayloadChars m files
      = lbrace :: ("\"message\":".data ++ (printString m.data
        ++ (",\"files\":".data
        ++ ('[' :: (joinComma (files.map printFile) ++ ']' :: [rbrace]))))) := by
    simp [printPayloadChars, List.append_assoc]
  rw [e, parseSubmissionPayloadChars.eq_def]
  simp +decide only [string_mk_data, expectChars_self_append, parseJsonString_print,
    parseFilesList_print, if_true, if_false]

/-- C10: the plaintext envelope serialization round-trips — for every
message string and file list, parsing the built JSON payload returns the
message and the files (name, content-type, data bytes as a number array)
unchanged. -/
theorem parseSubmissionPayload_roundtrip (m : String) (files : List SubmissionFile) :
    parseSubmissionPayload (buildSubmissionPayload m files)
      = some ⟨m, files.map (fun f => ⟨f.name, f.type, f.data⟩)⟩ := by
  unfold parseSubmissionPayload buildSubmissionPayload
  exact parseSubmissionPayloadChars_print m _

end VoidProtocol
